import Mathlib

/-!
Shallow embedding of the xsz extent-accounting pipeline
(src/scale.rs, src/btrfs.rs, src/collector.rs, src/walkdir.rs, src/oldmain.rs),
together with proofs about its aggregation, parsing, formatting and job
management behaviour.

Machine integers are modelled as `Nat`; wrap-around is written out explicitly
(`% 2 ^ 64`) at the one place the source can underflow.  Rust panics are
modelled as `none` / a dedicated `panic` outcome; diagnostic strings carried by
`Err(_)` are not modelled (no claim concerns their text).
-/

namespace Xsz

/-- Compression enum from btrfs.rs (`None = 0, Zlib, Lzo, Zstd`). -/
inductive Compression
| None
| Zlib
| Lzo
| Zstd
deriving DecidableEq

/-- Translation of `Compression::from_u8`: `assert!(n <= 3)` then transmute; a
failed assertion (a Rust panic) is modelled as `none`. -/
def Compression.from_u8 (n : Nat) : Option Compression :=
  match n with
  | 0 => some .None
  | 1 => some .Zlib
  | 2 => some .Lzo
  | 3 => some .Zstd
  | _ => none

/-- Extent type enum from btrfs.rs (`Inline = 0, Regular, Prealloc`). -/
inductive ExtentType
| Inline
| Regular
| Prealloc
deriving DecidableEq

/-- Translation of `ExtentType::from_u8`: `panic!` for `n > 2`, modelled as
`none`. -/
def ExtentType.from_u8 (n : Nat) : Option ExtentType :=
  match n with
  | 0 => some .Inline
  | 1 => some .Regular
  | 2 => some .Prealloc
  | _ => none

/-- Translation of `Stat` in btrfs.rs (imported as `ExtentStat` at its use sites in scale.rs). -/
structure ExtentStat where
  disk : Nat
  uncomp : Nat
  refd : Nat
deriving DecidableEq

/-- Translation of `ExtentInfo` from btrfs.rs; the field `typ` stands for the raw-identifier
field `r#type` of the source. -/
structure ExtentInfo where
  objectid : Nat
  offset : Nat
  disk_bytenr : Nat
  typ : ExtentType
  compression : Compression
  stat : ExtentStat
deriving DecidableEq

/-- Translation of `ExtentInfo::key` returns the stored (already shifted) `disk_bytenr`. -/
def ExtentInfo.key (e : ExtentInfo) : Nat := e.disk_bytenr

/-- The four-entry array `stat: [ExtentStat; 4]` of `CompsizeStat`, indexed by
`Compression::as_usize` (s0 = none, s1 = zlib, s2 = lzo, s3 = zstd). -/
structure PerComp where
  s0 : ExtentStat
  s1 : ExtentStat
  s2 : ExtentStat
  s3 : ExtentStat
deriving DecidableEq

/-- Read `stat[comp.as_usize()]`. -/
def PerComp.get (p : PerComp) : Compression → ExtentStat
  | .None => p.s0
  | .Zlib => p.s1
  | .Lzo => p.s2
  | .Zstd => p.s3

/-- Update `stat[comp.as_usize()]` in place. -/
def PerComp.modify (p : PerComp) (c : Compression) (f : ExtentStat → ExtentStat) : PerComp :=
  match c with
  | .None => { p with s0 := f p.s0 }
  | .Zlib => { p with s1 := f p.s1 }
  | .Lzo => { p with s2 := f p.s2 }
  | .Zstd => { p with s3 := f p.s3 }

/-- Translation of `pub type ExtentMap = HashSet<u64, BuildNoHashHasher<u64>>` from scale.rs,
modelled as a finite set of keys (the hasher only affects performance). -/
abbrev ExtentMap := Finset Nat

/-- Translation of `CompsizeStat` from scale.rs. -/
structure CompsizeStat where
  nfile : Nat
  ninline : Nat
  nref : Nat
  nextent : Nat
  prealloc : ExtentStat
  stat : PerComp
deriving DecidableEq

/-- Translation of `CompsizeStat::default()`: all counters and stats zero. -/
def CompsizeStat.init : CompsizeStat :=
  ⟨0, 0, 0, 0, ⟨0, 0, 0⟩, ⟨⟨0, 0, 0⟩, ⟨0, 0, 0⟩, ⟨0, 0, 0⟩, ⟨0, 0, 0⟩⟩⟩

/-- Translation of `CompsizeStat::insert` from scale.rs.  `&mut self` and `&mut ExtentMap` are
modelled by returning the updated pair.  `extent_map.insert(key)` returning
`true` is the `e.key ∉ extent_map` test; the two or three `+=` statements on
one bucket are fused into a single `modify`. -/
def CompsizeStat.insert (self : CompsizeStat) (extent_map : ExtentMap) (extent : ExtentInfo) :
    CompsizeStat × ExtentMap :=
  let comp := extent.compression
  let stat := extent.stat
  match extent.typ with
  | .Inline =>
      ({ self with
          ninline := self.ninline + 1,
          stat := self.stat.modify comp fun s =>
            { s with disk := s.disk + stat.disk, uncomp := s.uncomp + stat.uncomp,
                     refd := s.refd + stat.refd } },
        extent_map)
  | .Regular =>
      if extent.key ∈ extent_map then
        ({ self with
            nref := self.nref + 1,
            stat := self.stat.modify comp fun s => { s with refd := s.refd + stat.refd } },
          extent_map)
      else
        ({ self with
            nref := self.nref + 1,
            nextent := self.nextent + 1,
            stat := self.stat.modify comp fun s =>
              { s with disk := s.disk + stat.disk, uncomp := s.uncomp + stat.uncomp,
                       refd := s.refd + stat.refd } },
          Insert.insert extent.key extent_map)
  | .Prealloc =>
      if extent.key ∈ extent_map then
        ({ self with
            nref := self.nref + 1,
            prealloc := { self.prealloc with refd := self.prealloc.refd + stat.refd } },
          extent_map)
      else
        ({ self with
            nref := self.nref + 1,
            nextent := self.nextent + 1,
            prealloc := { self.prealloc with
              disk := self.prealloc.disk + stat.disk,
              uncomp := self.prealloc.uncomp + stat.uncomp,
              refd := self.prealloc.refd + stat.refd } },
          Insert.insert extent.key extent_map)

/-- One aggregation step on the collector state (stat, extent_map). -/
def stepInsert (p : CompsizeStat × ExtentMap) (e : ExtentInfo) : CompsizeStat × ExtentMap :=
  p.1.insert p.2 e

/-- Insert a list of extents, in order, into a fresh `CompsizeStat` and a fresh
seen-set. -/
def aggregate (E : List ExtentInfo) : CompsizeStat × ExtentMap :=
  E.foldl stepInsert (CompsizeStat.init, ∅)

/-- Translation of `CollectorMsg` from collector.rs. -/
inductive CollectorMsg
| Extent (extents : List ExtentInfo)
| NFile (n : Nat)

/-- Translation of `Collector::handle` from collector.rs: an extent batch is inserted one by
one; an NFile message adds to `nfile`. -/
def collectorHandle (p : CompsizeStat × ExtentMap) : CollectorMsg → CompsizeStat × ExtentMap
  | .Extent extents => extents.foldl stepInsert p
  | .NFile n => ({ p.1 with nfile := p.1.nfile + n }, p.2)

/-- Run the collector from its initial state over a message sequence. -/
def runCollector (msgs : List CollectorMsg) : CompsizeStat × ExtentMap :=
  msgs.foldl collectorHandle (CompsizeStat.init, ∅)

/-- Does the extent have kind Regular or Prealloc? -/
def isRegPre (e : ExtentInfo) : Bool :=
  match e.typ with
  | .Inline => false
  | .Regular => true
  | .Prealloc => true

/-- Does the extent have kind Inline? -/
def isInline (e : ExtentInfo) : Bool :=
  match e.typ with
  | .Inline => true
  | _ => false

/-- The accumulation bucket of a reference: the single prealloc entry for
Prealloc, the per-compression entry otherwise. -/
inductive Bucket
| prealloc
| comp (c : Compression)
deriving DecidableEq

/-- Which bucket the disk/uncomp/refd bytes of `e` are credited to. -/
def ExtentInfo.bucket (e : ExtentInfo) : Bucket :=
  match e.typ with
  | .Prealloc => .prealloc
  | _ => .comp e.compression

/-- Read a bucket of the accumulator. -/
def bucketGet (s : CompsizeStat) : Bucket → ExtentStat
  | .prealloc => s.prealloc
  | .comp c => s.stat.get c

/-- Pointwise sum of extent stats. -/
def statAdd (a b : ExtentStat) : ExtentStat :=
  ⟨a.disk + b.disk, a.uncomp + b.uncomp, a.refd + b.refd⟩

/-- Pointwise sum of the per-compression arrays. -/
def perCompAdd (a b : PerComp) : PerComp :=
  ⟨statAdd a.s0 b.s0, statAdd a.s1 b.s1, statAdd a.s2 b.s2, statAdd a.s3 b.s3⟩

/-- Pointwise sum of accumulators. -/
def csAdd (a b : CompsizeStat) : CompsizeStat :=
  ⟨a.nfile + b.nfile, a.ninline + b.ninline, a.nref + b.nref, a.nextent + b.nextent,
    statAdd a.prealloc b.prealloc, perCompAdd a.stat b.stat⟩

/-- The accumulator that is zero except for stat `st` in bucket `b`. -/
def bucketDelta (b : Bucket) (st : ExtentStat) : CompsizeStat :=
  match b with
  | .prealloc => { CompsizeStat.init with prealloc := st }
  | .comp c => { CompsizeStat.init with stat := CompsizeStat.init.stat.modify c fun _ => st }

/-- The net contribution of inserting `e`; `fresh` says whether its key was new
to the seen-set (only meaningful for Regular/Prealloc). -/
def ExtentInfo.delta (e : ExtentInfo) (fresh : Bool) : CompsizeStat :=
  if isRegPre e then
    if fresh then
      { bucketDelta e.bucket e.stat with nref := 1, nextent := 1 }
    else
      { bucketDelta e.bucket ⟨0, 0, e.stat.refd⟩ with nref := 1 }
  else
    { bucketDelta (.comp e.compression) e.stat with ninline := 1 }

/-- Total disk usage as summed by `CompsizeStatDisplay::fmt`
(`prealloc.disk + stat.iter().map(|s| s.disk).sum()`). -/
def CompsizeStat.totalDisk (s : CompsizeStat) : Nat :=
  s.prealloc.disk + (s.stat.s0.disk + s.stat.s1.disk + s.stat.s2.disk + s.stat.s3.disk)

/-- Total uncompressed usage as summed by `CompsizeStatDisplay::fmt`. -/
def CompsizeStat.totalUncomp (s : CompsizeStat) : Nat :=
  s.prealloc.uncomp + (s.stat.s0.uncomp + s.stat.s1.uncomp + s.stat.s2.uncomp + s.stat.s3.uncomp)

/-- Total referenced usage as summed by `CompsizeStatDisplay::fmt`. -/
def CompsizeStat.totalRefd (s : CompsizeStat) : Nat :=
  s.prealloc.refd + (s.stat.s0.refd + s.stat.s1.refd + s.stat.s2.refd + s.stat.s3.refd)

/-- Sum of the disk fields of a list of extents. -/
def sumDisk (E : List ExtentInfo) : Nat := (E.map fun e => e.stat.disk).sum

/-- Sum of the uncomp fields of a list of extents. -/
def sumUncomp (E : List ExtentInfo) : Nat := (E.map fun e => e.stat.uncomp).sum

/-- Sum of the refd fields of a list of extents. -/
def sumRefd (E : List ExtentInfo) : Nat := (E.map fun e => e.stat.refd).sum

/-- The Regular/Prealloc elements whose disk_key has not occurred on an earlier
Regular/Prealloc element; `seen` holds the keys already in the seen-set. -/
def firstRefsAux (seen : List Nat) : List ExtentInfo → List ExtentInfo
  | [] => []
  | e :: es =>
    if isRegPre e then
      if e.key ∈ seen then firstRefsAux seen es
      else e :: firstRefsAux (e.key :: seen) es
    else firstRefsAux seen es

/-- The Regular/Prealloc elements carrying the first occurrence of their key. -/
def firstRefs (E : List ExtentInfo) : List ExtentInfo := firstRefsAux [] E

/-- All extents carried by the Extent messages of a run, in order. -/
def allExtents : List CollectorMsg → List ExtentInfo
  | [] => []
  | .Extent es :: rest => es ++ allExtents rest
  | .NFile _ :: rest => allExtents rest

/-- The values of the NFile messages of a run. -/
def nfileVals : List CollectorMsg → List Nat
  | [] => []
  | .Extent _ :: rest => nfileVals rest
  | .NFile n :: rest => n :: nfileVals rest

/-- Compatibility of a multiset of extents: any two Regular/Prealloc elements
sharing a disk_key agree on the bucket and on the deduplicated fields. -/
def Compat (E : List ExtentInfo) : Prop :=
  ∀ a ∈ E, ∀ b ∈ E, isRegPre a = true → isRegPre b = true → a.key = b.key →
    a.bucket = b.bucket ∧ a.stat.disk = b.stat.disk ∧ a.stat.uncomp = b.stat.uncomp

/-- Compatibility is decidable, so concrete instances can be checked by
evaluation. -/
instance (E : List ExtentInfo) : Decidable (Compat E) :=
  decidable_of_iff
    (∀ a ∈ E, ∀ b ∈ E, isRegPre a = true → isRegPre b = true → a.key = b.key →
      a.bucket = b.bucket ∧ a.stat.disk = b.stat.disk ∧ a.stat.uncomp = b.stat.uncomp)
    Iff.rfl

/-- Translation of `IoctlSearchHeader` (little-endian fields already decoded); only
`objectid`, `offset` and `len` feed `parse`. -/
structure IoctlSearchHeader where
  transid : Nat
  objectid : Nat
  offset : Nat
  rtype : Nat
  len : Nat
deriving DecidableEq

/-- Translation of `FileExtentHeader` (packed, 21 bytes on disk). -/
structure FileExtentHeader where
  generation : Nat
  ram_bytes : Nat
  compression : Nat
  encryption : Nat
  other_encoding : Nat
  typ : Nat
deriving DecidableEq

/-- The `Meta` tail of a Regular/Prealloc file extent (packed, 32 bytes). -/
structure ExtentMeta where
  disk_bytenr : Nat
  disk_num_bytes : Nat
  offset : Nat
  num_bytes : Nat
deriving DecidableEq

/-- Translation of `FileExtent`: header plus tail.  The source stores the tail in a union that
is only read on the non-inline path; here it is carried unconditionally. -/
structure FileExtent where
  header : FileExtentHeader
  tail : ExtentMeta
deriving DecidableEq

/-- Translation of `IoctlSearchItem`: search header plus file extent item. -/
structure IoctlSearchItem where
  header : IoctlSearchHeader
  item : FileExtent
deriving DecidableEq

/-- Outcome of `IoctlSearchItem::parse`: `panic` models a Rust panic inside
`from_u8`, `error` an `Err(_)` (the diagnostic string is not modelled),
`dropped` the silent `Ok(None)` for holes, `parsed e` is `Ok(Some(e))`. -/
inductive ParseOutcome
| panic
| error
| dropped
| parsed (e : ExtentInfo)
deriving DecidableEq

/-- Translation of `IoctlSearchItem::parse` from btrfs.rs.  The inline on-disk size
`hlen as u64 - size_of_val(header) as u64` is u64 wrapping subtraction of 21;
`size_of::<FileExtent>()` is 53. -/
def IoctlSearchItem.parse (self : IoctlSearchItem) : ParseOutcome :=
  let hlen := self.header.len
  let ram_bytes := self.item.header.ram_bytes
  match Compression.from_u8 self.item.header.compression with
  | none => .panic
  | some compression =>
    match ExtentType.from_u8 self.item.header.typ with
    | none => .panic
    | some t =>
      if t = ExtentType.Inline then
        let disk_num_bytes := (hlen + (2 ^ 64 - 21)) % 2 ^ 64
        .parsed ⟨self.header.objectid, self.header.offset, 0, t, compression,
          ⟨disk_num_bytes, ram_bytes, ram_bytes⟩⟩
      else if hlen ≠ 53 then
        .error
      else if self.item.tail.disk_bytenr = 0 then
        .dropped
      else if self.item.tail.disk_bytenr &&& 0xfff ≠ 0 then
        .error
      else
        .parsed ⟨self.header.objectid, self.header.offset,
          self.item.tail.disk_bytenr >>> 12, t, compression,
          ⟨self.item.tail.disk_num_bytes, ram_bytes, self.item.tail.num_bytes⟩⟩

/-- Translation of `UNITS = b"BKMGTPE"` from scale.rs. -/
def UNITS : List Char := ['B', 'K', 'M', 'G', 'T', 'P', 'E']

/-- Right-align a string in width `w` with spaces (Rust format `{:>w}`). -/
def padLeftSpaces (w : Nat) (s : String) : String :=
  String.mk (List.replicate (w - s.length) ' ') ++ s

/-- Left-align a string in width `w` with spaces (Rust format `{:<w}`). -/
def padRightSpaces (w : Nat) (s : String) : String :=
  s ++ String.mk (List.replicate (w - s.length) ' ')

/-- The shift loop of `Scale::scale`
(`while num > base * 10 { num >>= 10; cnt += 1 }` with `base = 1024`). -/
def humanLoop (num cnt : Nat) : Nat × Nat :=
  if 1024 * 10 < num then humanLoop (num >>> 10) (cnt + 1) else (num, cnt)
termination_by num
decreasing_by
  simp only [Nat.shiftRight_eq_div_pow]
  exact Nat.div_lt_self (by omega) (by norm_num)

/-- Translation of `Scale` from scale.rs. -/
inductive Scale
| Bytes
| Human

/-- Translation of `Scale::scale` from scale.rs.  The panicking index `UNITS[cnt]` is modelled
with `Option` (`none` = out-of-bounds panic). -/
def Scale.scale (self : Scale) (num : Nat) : Option String :=
  match self with
  | .Bytes => some (toString num ++ "B")
  | .Human =>
    let p := humanLoop num 0
    if p.1 < 1024 then
      (UNITS[p.2]?).map fun u => padLeftSpaces 4 (toString p.1) ++ String.mk [u]
    else
      (UNITS[p.2 + 1]?).map fun u =>
        " " ++ toString (p.1 >>> 10) ++ "." ++ toString (p.1 * 10 / 1024 % 10)
          ++ String.mk [u]

/-- Least number of 10-bit right shifts after which the value is at most
`10 * 1024`: the specification-side description of the shift loop. -/
def leastShift (n : Nat) : Nat :=
  Nat.find (show ∃ k, n >>> (10 * k) ≤ 1024 * 10 from ⟨n, by
    have h1 : n < 2 ^ (10 * n) :=
      lt_of_lt_of_le (Nat.lt_two_pow n) (Nat.pow_le_pow_right (by norm_num) (by omega))
    simp [Nat.shiftRight_eq_div_pow, Nat.div_eq_of_lt h1]⟩)

/-- Device id (`DevId = NonZeroU64` in fs_util.rs). -/
abbrev DevId := Nat

/-- Translation of `JobChunk` from walkdir.rs: directory paths (abstracted to naturals) tagged
with the device id of their filesystem; the shared directory fd (an OS
resource) is not modelled. -/
structure JobChunk where
  dev : DevId
  dirs : List Nat
deriving DecidableEq

/-- The Director's store `JobMgr.jobs: HashMap<DevId, (Vec<Box<Path>>, _)>`,
modelled as an association list with distinct keys; `keys().next()` picks the
head. -/
abbrev JobMgr := List (DevId × List Nat)

/-- Translation of `JobMgr::push`: append the chunk's dirs to its device's bucket, or insert a
new bucket. -/
def JobMgr.push (jobs : JobMgr) (chunk : JobChunk) : JobMgr :=
  match jobs with
  | [] => [(chunk.dev, chunk.dirs)]
  | (d, ds) :: rest =>
    if d = chunk.dev then (d, ds ++ chunk.dirs) :: rest
    else (d, ds) :: JobMgr.push rest chunk

/-- Translation of `JobMgr::get_n_jobs`: `None` on an empty store; otherwise remove the whole
first bucket when it holds at most `n` entries, else drain its first `n`
entries (`drain(0..n)`) and leave the remainder. -/
def JobMgr.get_n_jobs (jobs : JobMgr) (n : Nat) : Option (JobChunk × JobMgr) :=
  match jobs with
  | [] => none
  | (dev, dirs) :: rest =>
    if dirs.length ≤ n then some (⟨dev, dirs⟩, rest)
    else some (⟨dev, dirs.take n⟩, (dev, dirs.drop n) :: rest)

/-- Rust `u64` division as used by the formatter: division by zero panics,
modelled as `none`. -/
def checkedDiv (a b : Nat) : Option Nat := if b = 0 then none else some (a / b)

/-- Translation of `Stat::is_empty` (`uncomp == 0`). -/
def ExtentStat.is_empty (s : ExtentStat) : Bool := s.uncomp == 0

/-- Translation of `Stat::get_percent` (`disk * 100 / uncomp`): panics when `uncomp == 0`. -/
def ExtentStat.get_percent (s : ExtentStat) : Option Nat := checkedDiv (s.disk * 100) s.uncomp

/-- Translation of `Compression::name`. -/
def Compression.name : Compression → String
  | .None => "none"
  | .Zlib => "zlib"
  | .Lzo => "lzo"
  | .Zstd => "zstd"

/-- The `write_table` row formatter nested in `CompsizeStatDisplay::fmt`. -/
def write_table (ty percentage disk_usage uncomp_usage refd_usage : String) : String :=
  padRightSpaces 10 ty ++ " " ++ padRightSpaces 8 percentage ++ " " ++
    padRightSpaces 12 disk_usage ++ " " ++ padRightSpaces 12 uncomp_usage ++ " " ++
    padRightSpaces 12 refd_usage ++ "\n"

/-- One per-compression row of `CompsizeStatDisplay::fmt`; empty rows are
skipped (`continue`). -/
def compRow (scale : Scale) (c : Compression) (s : ExtentStat) : Option String :=
  if s.is_empty then some "" else do
    let p ← s.get_percent
    let d ← scale.scale s.disk
    let u ← scale.scale s.uncomp
    let r ← scale.scale s.refd
    pure (write_table c.name (padLeftSpaces 3 (toString p) ++ "%") d u r)

/-- Translation of `CompsizeStatDisplay::fmt` from scale.rs: renders the whole report to one
string (stdout), or `none` where the source panics — notably the TOTAL row
percentage `total_disk * 100 / total_uncomp`, marked `// bug: div by 0` in the
source, when the accumulated uncompressed total is zero. -/
def CompsizeStat.render (stat : CompsizeStat) (scale : Scale) : Option String := do
  let line0 := "Processed " ++ toString stat.nfile ++ " files, " ++ toString stat.nextent ++
    " regular extents (" ++ toString stat.nref ++ " refs), " ++ toString stat.ninline ++
    " inline.\n"
  let header := write_table "Type" "Perc" "Disk Usage" "Uncompressed" "Referenced"
  let total_percentage ← checkedDiv (stat.totalDisk * 100) stat.totalUncomp
  let td ← scale.scale stat.totalDisk
  let tu ← scale.scale stat.totalUncomp
  let tr ← scale.scale stat.totalRefd
  let totalRow := write_table "TOTAL" (padLeftSpaces 3 (toString total_percentage) ++ "%") td tu tr
  let r0 ← compRow scale .None stat.stat.s0
  let r1 ← compRow scale .Zlib stat.stat.s1
  let r2 ← compRow scale .Lzo stat.stat.s2
  let r3 ← compRow scale .Zstd stat.stat.s3
  let pre ←
    if stat.prealloc.is_empty then pure "" else do
      let p ← stat.prealloc.get_percent
      let d ← scale.scale stat.prealloc.disk
      let u ← scale.scale stat.prealloc.uncomp
      let r ← scale.scale stat.prealloc.refd
      pure (write_table "Prealloc" (padLeftSpaces 3 (toString p) ++ "%") d u r)
  pure (line0 ++ header ++ totalRow ++ r0 ++ r1 ++ r2 ++ r3 ++ pre)

/-- Outcome of the oldmain.rs epilogue: either a stderr message with an exit
code, or the statistics rendered to stdout. -/
inductive MainOutcome
| stderrExit (msg : String) (code : Nat)
| stdoutRender (out : Option String)
deriving DecidableEq

/-- Lines 183-191 of oldmain.rs: the empty-result handling after the crawl. -/
def oldmainEpilogue (final_stat : CompsizeStat) : MainOutcome :=
  if final_stat.nfile = 0 then .stderrExit "No files." 1
  else if final_stat.nref = 0 then .stderrExit "All empty or still-delalloced files." 1
  else .stdoutRender (final_stat.render Scale.Human)

/-! Structural lemmas about the accumulator algebra. -/

theorem csAdd_assoc (a b c : CompsizeStat) : csAdd (csAdd a b) c = csAdd a (csAdd b c) := by
  simp only [csAdd, statAdd, perCompAdd, CompsizeStat.mk.injEq, ExtentStat.mk.injEq,
    PerComp.mk.injEq]
  omega

theorem csAdd_right_comm (s a b : CompsizeStat) : csAdd (csAdd s a) b = csAdd (csAdd s b) a := by
  simp only [csAdd, statAdd, perCompAdd, CompsizeStat.mk.injEq, ExtentStat.mk.injEq,
    PerComp.mk.injEq]
  omega

theorem insert_eq_add (s : CompsizeStat) (m : ExtentMap) (e : ExtentInfo) :
    CompsizeStat.insert s m e =
      (csAdd s (e.delta (isRegPre e && decide (e.key ∉ m))),
        if isRegPre e then Insert.insert e.key m else m) := by
  rcases e with ⟨oid, off, key, ty, comp, ⟨d, u, r⟩⟩
  cases ty <;> by_cases hk : key ∈ m <;> cases comp <;>
    simp [CompsizeStat.insert, ExtentInfo.delta, ExtentInfo.key, ExtentInfo.bucket, isRegPre,
      csAdd, statAdd, perCompAdd, bucketDelta, PerComp.modify, PerComp.get,
      CompsizeStat.init, hk]

theorem delta_nfile (e : ExtentInfo) (f : Bool) : (e.delta f).nfile = 0 := by
  rcases e with ⟨oid, off, key, ty, comp, ⟨d, u, r⟩⟩
  cases ty <;> cases comp <;> cases f <;>
    simp [ExtentInfo.delta, isRegPre, ExtentInfo.bucket, bucketDelta, PerComp.modify,
      CompsizeStat.init]

theorem delta_ninline (e : ExtentInfo) (f : Bool) :
    (e.delta f).ninline = if isRegPre e = true then 0 else 1 := by
  rcases e with ⟨oid, off, key, ty, comp, ⟨d, u, r⟩⟩
  cases ty <;> cases comp <;> cases f <;>
    simp [ExtentInfo.delta, isRegPre, ExtentInfo.bucket, bucketDelta, PerComp.modify,
      CompsizeStat.init]

theorem delta_nref (e : ExtentInfo) (f : Bool) :
    (e.delta f).nref = if isRegPre e = true then 1 else 0 := by
  rcases e with ⟨oid, off, key, ty, comp, ⟨d, u, r⟩⟩
  cases ty <;> cases comp <;> cases f <;>
    simp [ExtentInfo.delta, isRegPre, ExtentInfo.bucket, bucketDelta, PerComp.modify,
      CompsizeStat.init]

theorem delta_nextent (e : ExtentInfo) (f : Bool) :
    (e.delta f).nextent = if isRegPre e = true ∧ f = true then 1 else 0 := by
  rcases e with ⟨oid, off, key, ty, comp, ⟨d, u, r⟩⟩
  cases ty <;> cases comp <;> cases f <;>
    simp [ExtentInfo.delta, isRegPre, ExtentInfo.bucket, bucketDelta, PerComp.modify,
      CompsizeStat.init]

theorem totalDisk_csAdd (a b : CompsizeStat) :
    (csAdd a b).totalDisk = a.totalDisk + b.totalDisk := by
  simp [csAdd, statAdd, perCompAdd, CompsizeStat.totalDisk]
  omega

theorem totalUncomp_csAdd (a b : CompsizeStat) :
    (csAdd a b).totalUncomp = a.totalUncomp + b.totalUncomp := by
  simp [csAdd, statAdd, perCompAdd, CompsizeStat.totalUncomp]
  omega

theorem totalRefd_csAdd (a b : CompsizeStat) :
    (csAdd a b).totalRefd = a.totalRefd + b.totalRefd := by
  simp [csAdd, statAdd, perCompAdd, CompsizeStat.totalRefd]
  omega

theorem totalDisk_delta (e : ExtentInfo) (f : Bool) :
    (e.delta f).totalDisk =
      if isRegPre e = true then (if f = true then e.stat.disk else 0) else e.stat.disk := by
  rcases e with ⟨oid, off, key, ty, comp, ⟨d, u, r⟩⟩
  cases ty <;> cases comp <;> cases f <;>
    simp [ExtentInfo.delta, isRegPre, ExtentInfo.bucket, bucketDelta, PerComp.modify,
      CompsizeStat.init, CompsizeStat.totalDisk]

theorem totalUncomp_delta (e : ExtentInfo) (f : Bool) :
    (e.delta f).totalUncomp =
      if isRegPre e = true then (if f = true then e.stat.uncomp else 0) else e.stat.uncomp := by
  rcases e with ⟨oid, off, key, ty, comp, ⟨d, u, r⟩⟩
  cases ty <;> cases comp <;> cases f <;>
    simp [ExtentInfo.delta, isRegPre, ExtentInfo.bucket, bucketDelta, PerComp.modify,
      CompsizeStat.init, CompsizeStat.totalUncomp]

theorem totalRefd_delta (e : ExtentInfo) (f : Bool) :
    (e.delta f).totalRefd = e.stat.refd := by
  rcases e with ⟨oid, off, key, ty, comp, ⟨d, u, r⟩⟩
  cases ty <;> cases comp <;> cases f <;>
    simp [ExtentInfo.delta, isRegPre, ExtentInfo.bucket, bucketDelta, PerComp.modify,
      CompsizeStat.init, CompsizeStat.totalRefd]

theorem bucketGet_csAdd (a b : CompsizeStat) (bk : Bucket) :
    bucketGet (csAdd a b) bk = statAdd (bucketGet a bk) (bucketGet b bk) := by
  cases bk with
  | prealloc => rfl
  | comp c => cases c <;> rfl

theorem bucketGet_delta_fresh_same (e : ExtentInfo) (h : isRegPre e = true) :
    bucketGet (e.delta true) e.bucket = e.stat := by
  rcases e with ⟨oid, off, key, ty, comp, ⟨d, u, r⟩⟩
  cases ty <;> cases comp <;>
    simp_all [ExtentInfo.delta, isRegPre, ExtentInfo.bucket, bucketDelta, PerComp.modify,
      PerComp.get, CompsizeStat.init, bucketGet]

theorem bucketGet_delta_fresh_ne (e : ExtentInfo) (bk : Bucket) (h : isRegPre e = true)
    (hne : bk ≠ e.bucket) : bucketGet (e.delta true) bk = ⟨0, 0, 0⟩ := by
  rcases e with ⟨oid, off, key, ty, comp, ⟨d, u, r⟩⟩
  rcases bk with _ | c0 <;> cases ty <;> cases comp <;> (try cases c0) <;>
    simp_all [ExtentInfo.delta, isRegPre, ExtentInfo.bucket, bucketDelta, PerComp.modify,
      PerComp.get, CompsizeStat.init, bucketGet]

theorem bucketGet_delta_stale (e : ExtentInfo) (bk : Bucket) (h : isRegPre e = true) :
    (bucketGet (e.delta false) bk).disk = 0 ∧ (bucketGet (e.delta false) bk).uncomp = 0 ∧
      (bucketGet (e.delta false) bk).refd = (if bk = e.bucket then e.stat.refd else 0) := by
  rcases e with ⟨oid, off, key, ty, comp, ⟨d, u, r⟩⟩
  rcases bk with _ | c0 <;> cases ty <;> cases comp <;> (try cases c0) <;>
    simp_all [ExtentInfo.delta, isRegPre, ExtentInfo.bucket, bucketDelta, PerComp.modify,
      PerComp.get, CompsizeStat.init, bucketGet]

theorem csAdd_nfile (a b : CompsizeStat) : (csAdd a b).nfile = a.nfile + b.nfile := rfl

theorem csAdd_ninline (a b : CompsizeStat) : (csAdd a b).ninline = a.ninline + b.ninline := rfl

theorem csAdd_nref (a b : CompsizeStat) : (csAdd a b).nref = a.nref + b.nref := rfl

theorem csAdd_nextent (a b : CompsizeStat) : (csAdd a b).nextent = a.nextent + b.nextent := rfl

theorem isInline_eq_not_regpre (e : ExtentInfo) : isInline e = ! isRegPre e := by
  rcases e with ⟨_, _, _, ty, _, _⟩
  cases ty <;> rfl

theorem sumDisk_nil : sumDisk [] = 0 := rfl

theorem sumDisk_cons (e : ExtentInfo) (E : List ExtentInfo) :
    sumDisk (e :: E) = e.stat.disk + sumDisk E := by simp [sumDisk]

theorem sumUncomp_nil : sumUncomp [] = 0 := rfl

theorem sumUncomp_cons (e : ExtentInfo) (E : List ExtentInfo) :
    sumUncomp (e :: E) = e.stat.uncomp + sumUncomp E := by simp [sumUncomp]

theorem sumRefd_nil : sumRefd [] = 0 := rfl

theorem sumRefd_cons (e : ExtentInfo) (E : List ExtentInfo) :
    sumRefd (e :: E) = e.stat.refd + sumRefd E := by simp [sumRefd]

theorem stepInsert_eq (s : CompsizeStat) (m : ExtentMap) (e : ExtentInfo) :
    stepInsert (s, m) e =
      (csAdd s (e.delta (isRegPre e && decide (e.key ∉ m))),
        if isRegPre e then Insert.insert e.key m else m) := insert_eq_add s m e

/-- Main fold invariant for the three grand totals: the seen-set tracks `seen`,
inline stats always accumulate, Regular/Prealloc disk/uncomp accumulate only on
first occurrence of the key, refd always accumulates. -/
theorem totals_foldl (E : List ExtentInfo) :
    ∀ (s : CompsizeStat) (m : ExtentMap) (seen : List Nat),
      (∀ k, k ∈ m ↔ k ∈ seen) →
      (E.foldl stepInsert (s, m)).1.totalDisk
          = s.totalDisk + (sumDisk (E.filter isInline) + sumDisk (firstRefsAux seen E)) ∧
      (E.foldl stepInsert (s, m)).1.totalUncomp
          = s.totalUncomp + (sumUncomp (E.filter isInline) + sumUncomp (firstRefsAux seen E)) ∧
      (E.foldl stepInsert (s, m)).1.totalRefd = s.totalRefd + sumRefd E := by
  induction E with
  | nil =>
    intro s m seen hms
    simp [sumDisk, sumUncomp, sumRefd, firstRefsAux]
  | cons e es ih =>
    intro s m seen hms
    rw [List.foldl_cons]
    by_cases hr : isRegPre e
    · by_cases hk : e.key ∈ m
      · -- key already seen: only refd accumulates
        have hflag : (isRegPre e && decide (e.key ∉ m)) = false := by simp [hr, hk]
        have hmap : (if isRegPre e then Insert.insert e.key m else m) = m := by
          simp [hr, Finset.insert_eq_self.mpr hk]
        rw [stepInsert_eq, hflag, hmap]
        obtain ⟨ihd, ihu, ihr⟩ := ih (csAdd s (e.delta false)) m seen hms
        have hseen : e.key ∈ seen := (hms e.key).mp hk
        rw [ihd, ihu, ihr]
        simp [List.filter_cons, isInline_eq_not_regpre, hr, Bool.not_true,
          Bool.false_eq_true, if_false, firstRefsAux, if_pos hseen, if_pos hr,
          totalDisk_csAdd, totalUncomp_csAdd, totalRefd_csAdd, totalDisk_delta,
          totalUncomp_delta, totalRefd_delta, sumDisk_cons, sumUncomp_cons, sumRefd_cons]
        omega
      · -- fresh key: everything accumulates, key enters the seen-set
        have hflag : (isRegPre e && decide (e.key ∉ m)) = true := by simp [hr, hk]
        have hmap : (if isRegPre e then Insert.insert e.key m else m)
            = Insert.insert e.key m := by simp [hr]
        rw [stepInsert_eq, hflag, hmap]
        have hms2 : ∀ k, k ∈ Insert.insert e.key m ↔ k ∈ e.key :: seen := by
          intro k
          simp [Finset.mem_insert, hms k]
        obtain ⟨ihd, ihu, ihr⟩ := ih (csAdd s (e.delta true)) _ (e.key :: seen) hms2
        have hseen : e.key ∉ seen := fun hx => hk ((hms e.key).mpr hx)
        rw [ihd, ihu, ihr]
        simp [List.filter_cons, isInline_eq_not_regpre, hr, Bool.not_true,
          Bool.false_eq_true, if_false, firstRefsAux, if_neg hseen, if_pos hr,
          totalDisk_csAdd, totalUncomp_csAdd, totalRefd_csAdd, totalDisk_delta,
          totalUncomp_delta, totalRefd_delta, sumDisk_cons, sumUncomp_cons, sumRefd_cons]
        omega
    · -- inline: all three fields accumulate, the seen-set is untouched
      have hflag : (isRegPre e && decide (e.key ∉ m)) = false := by simp [hr]
      have hmap : (if isRegPre e then Insert.insert e.key m else m) = m := by simp [hr]
      rw [stepInsert_eq, hflag, hmap]
      obtain ⟨ihd, ihu, ihr⟩ := ih (csAdd s (e.delta false)) m seen hms
      have hinl : isInline e = true := by
        rw [isInline_eq_not_regpre]
        simp [Bool.eq_false_iff.mpr hr]
      rw [ihd, ihu, ihr]
      simp [List.filter_cons, hinl, if_pos, firstRefsAux, if_neg,
        totalDisk_csAdd, totalUncomp_csAdd, totalRefd_csAdd, totalDisk_delta,
        totalUncomp_delta, totalRefd_delta, sumDisk_cons, sumUncomp_cons, sumRefd_cons, hr,
        Bool.false_eq_true]
      omega

theorem ninline_foldl (E : List ExtentInfo) :
    ∀ p : CompsizeStat × ExtentMap,
      (E.foldl stepInsert p).1.ninline = p.1.ninline + (E.filter isInline).length := by
  induction E with
  | nil => intro p; simp
  | cons e es ih =>
    intro p
    obtain ⟨s, m⟩ := p
    rw [List.foldl_cons, stepInsert_eq, ih]
    simp only [csAdd_ninline, delta_ninline, List.filter_cons, isInline_eq_not_regpre]
    by_cases hr : isRegPre e <;> simp [hr] <;> omega

theorem nref_foldl (E : List ExtentInfo) :
    ∀ p : CompsizeStat × ExtentMap,
      (E.foldl stepInsert p).1.nref = p.1.nref + (E.filter isRegPre).length := by
  induction E with
  | nil => intro p; simp
  | cons e es ih =>
    intro p
    obtain ⟨s, m⟩ := p
    rw [List.foldl_cons, stepInsert_eq, ih]
    simp only [csAdd_nref, delta_nref, List.filter_cons]
    by_cases hr : isRegPre e <;> simp [hr] <;> omega

theorem nfile_foldl (E : List ExtentInfo) :
    ∀ p : CompsizeStat × ExtentMap,
      (E.foldl stepInsert p).1.nfile = p.1.nfile := by
  induction E with
  | nil => intro p; simp
  | cons e es ih =>
    intro p
    obtain ⟨s, m⟩ := p
    rw [List.foldl_cons, stepInsert_eq, ih]
    simp [csAdd_nfile, delta_nfile]

theorem map_foldl (E : List ExtentInfo) :
    ∀ p : CompsizeStat × ExtentMap,
      (E.foldl stepInsert p).2 = p.2 ∪ ((E.filter isRegPre).map ExtentInfo.key).toFinset := by
  induction E with
  | nil => intro p; simp
  | cons e es ih =>
    intro p
    obtain ⟨s, m⟩ := p
    rw [List.foldl_cons, stepInsert_eq, ih]
    by_cases hr : isRegPre e
    · simp [hr, List.filter_cons, List.map_cons, List.toFinset_cons, Finset.insert_union,
        Finset.union_insert]
    · simp [hr, List.filter_cons]

theorem nextent_foldl (E : List ExtentInfo) :
    ∀ p : CompsizeStat × ExtentMap,
      (E.foldl stepInsert p).1.nextent + p.2.card
        = p.1.nextent + ((E.foldl stepInsert p).2).card := by
  induction E with
  | nil => intro p; simp
  | cons e es ih =>
    intro p
    obtain ⟨s, m⟩ := p
    rw [List.foldl_cons, stepInsert_eq]
    by_cases hr : isRegPre e
    · by_cases hk : e.key ∈ m
      · have hflag : (isRegPre e && decide (e.key ∉ m)) = false := by simp [hr, hk]
        have hmap : (if isRegPre e then Insert.insert e.key m else m) = m := by
          simp [hr, Finset.insert_eq_self.mpr hk]
        rw [hflag, hmap]
        have h5 := ih (csAdd s (e.delta false), m)
        dsimp only at h5 ⊢
        have e1 : (csAdd s (e.delta false)).nextent = s.nextent := by
          rw [csAdd_nextent, delta_nextent]
          simp [hr]
        omega
      · have hflag : (isRegPre e && decide (e.key ∉ m)) = true := by simp [hr, hk]
        have hmap : (if isRegPre e then Insert.insert e.key m else m)
            = Insert.insert e.key m := by simp [hr]
        rw [hflag, hmap]
        have h5 := ih (csAdd s (e.delta true), Insert.insert e.key m)
        dsimp only at h5 ⊢
        have e1 : (csAdd s (e.delta true)).nextent = s.nextent + 1 := by
          rw [csAdd_nextent, delta_nextent]
          simp [hr]
        have e2 : (Insert.insert e.key m).card = m.card + 1 :=
          Finset.card_insert_of_not_mem hk
        omega
    · have hflag : (isRegPre e && decide (e.key ∉ m)) = false := by simp [hr]
      have hmap : (if isRegPre e then Insert.insert e.key m else m) = m := by simp [hr]
      rw [hflag, hmap]
      have h5 := ih (csAdd s (e.delta false), m)
      dsimp only at h5 ⊢
      have e1 : (csAdd s (e.delta false)).nextent = s.nextent := by
        rw [csAdd_nextent, delta_nextent]
        simp [hr]
      omega

theorem collector_ninline (msgs : List CollectorMsg) :
    ∀ p : CompsizeStat × ExtentMap,
      (msgs.foldl collectorHandle p).1.ninline
        = p.1.ninline + ((allExtents msgs).filter isInline).length := by
  induction msgs with
  | nil => intro p; simp [allExtents]
  | cons msg rest ih =>
    intro p
    rw [List.foldl_cons]
    cases msg with
    | Extent es =>
      show (rest.foldl collectorHandle (es.foldl stepInsert p)).1.ninline = _
      rw [ih, ninline_foldl]
      simp [allExtents, List.filter_append]
      omega
    | NFile n =>
      show (rest.foldl collectorHandle ({ p.1 with nfile := p.1.nfile + n }, p.2)).1.ninline = _
      rw [ih]
      simp [allExtents]

theorem collector_nref (msgs : List CollectorMsg) :
    ∀ p : CompsizeStat × ExtentMap,
      (msgs.foldl collectorHandle p).1.nref
        = p.1.nref + ((allExtents msgs).filter isRegPre).length := by
  induction msgs with
  | nil => intro p; simp [allExtents]
  | cons msg rest ih =>
    intro p
    rw [List.foldl_cons]
    cases msg with
    | Extent es =>
      show (rest.foldl collectorHandle (es.foldl stepInsert p)).1.nref = _
      rw [ih, nref_foldl]
      simp [allExtents, List.filter_append]
      omega
    | NFile n =>
      show (rest.foldl collectorHandle ({ p.1 with nfile := p.1.nfile + n }, p.2)).1.nref = _
      rw [ih]
      simp [allExtents]

theorem collector_nfile (msgs : List CollectorMsg) :
    ∀ p : CompsizeStat × ExtentMap,
      (msgs.foldl collectorHandle p).1.nfile = p.1.nfile + (nfileVals msgs).sum := by
  induction msgs with
  | nil => intro p; simp [nfileVals]
  | cons msg rest ih =>
    intro p
    rw [List.foldl_cons]
    cases msg with
    | Extent es =>
      show (rest.foldl collectorHandle (es.foldl stepInsert p)).1.nfile = _
      rw [ih, nfile_foldl]
      simp [nfileVals]
    | NFile n =>
      show (rest.foldl collectorHandle ({ p.1 with nfile := p.1.nfile + n }, p.2)).1.nfile = _
      rw [ih]
      simp [nfileVals]
      omega

theorem collector_map (msgs : List CollectorMsg) :
    ∀ p : CompsizeStat × ExtentMap,
      (msgs.foldl collectorHandle p).2
        = p.2 ∪ (((allExtents msgs).filter isRegPre).map ExtentInfo.key).toFinset := by
  induction msgs with
  | nil => intro p; simp [allExtents]
  | cons msg rest ih =>
    intro p
    rw [List.foldl_cons]
    cases msg with
    | Extent es =>
      show (rest.foldl collectorHandle (es.foldl stepInsert p)).2 = _
      rw [ih, map_foldl]
      simp [allExtents, List.filter_append, Finset.union_assoc]
    | NFile n =>
      show (rest.foldl collectorHandle ({ p.1 with nfile := p.1.nfile + n }, p.2)).2 = _
      rw [ih]
      simp [allExtents]

theorem collector_nextent (msgs : List CollectorMsg) :
    ∀ p : CompsizeStat × ExtentMap,
      (msgs.foldl collectorHandle p).1.nextent + p.2.card
        = p.1.nextent + ((msgs.foldl collectorHandle p).2).card := by
  induction msgs with
  | nil => intro p; simp
  | cons msg rest ih =>
    intro p
    rw [List.foldl_cons]
    cases msg with
    | Extent es =>
      show (rest.foldl collectorHandle (es.foldl stepInsert p)).1.nextent + p.2.card
          = p.1.nextent + ((rest.foldl collectorHandle (es.foldl stepInsert p)).2).card
      have h1 := nextent_foldl es p
      have h2 := ih (es.foldl stepInsert p)
      omega
    | NFile n =>
      show (rest.foldl collectorHandle ({ p.1 with nfile := p.1.nfile + n }, p.2)).1.nextent
            + p.2.card = _
      exact ih ({ p.1 with nfile := p.1.nfile + n }, p.2)

/-- C1 — Extent deduplication: over any input sequence, the grand totals of the
aggregator satisfy: disk and uncomp receive each Inline element's contribution
on every occurrence plus, for Regular/Prealloc, exactly one contribution per
distinct disk_key (the one carried by the first-inserted reference of that
key); refd receives every element's contribution once per element. -/
theorem c1_extent_dedup (E : List ExtentInfo) :
    (aggregate E).1.totalDisk = sumDisk (E.filter isInline) + sumDisk (firstRefs E) ∧
    (aggregate E).1.totalUncomp = sumUncomp (E.filter isInline) + sumUncomp (firstRefs E) ∧
    (aggregate E).1.totalRefd = sumRefd E := by
  have h := totals_foldl E CompsizeStat.init ∅ [] (by simp)
  obtain ⟨h1, h2, h3⟩ := h
  have hz1 : CompsizeStat.init.totalDisk = 0 := rfl
  have hz2 : CompsizeStat.init.totalUncomp = 0 := rfl
  have hz3 : CompsizeStat.init.totalRefd = 0 := rfl
  rw [aggregate, firstRefs]
  rw [h1, h2, h3, hz1, hz2, hz3]
  omega

/-- C2 — Count consistency: after the aggregator has processed every message,
`nextent` is the number of distinct disk_keys among the Regular/Prealloc
extents inserted, `nref` the number of Regular/Prealloc extents (with
multiplicity), `ninline` the number of Inline extents, and `nfile` the sum of
all NFile message values. -/
theorem c2_count_consistency (msgs : List CollectorMsg) :
    (runCollector msgs).1.nextent
        = (((allExtents msgs).filter isRegPre).map ExtentInfo.key).toFinset.card ∧
    (runCollector msgs).1.nref = ((allExtents msgs).filter isRegPre).length ∧
    (runCollector msgs).1.ninline = ((allExtents msgs).filter isInline).length ∧
    (runCollector msgs).1.nfile = (nfileVals msgs).sum := by
  refine ⟨?_, ?_, ?_, ?_⟩
  · have h1 := collector_nextent msgs (CompsizeStat.init, ∅)
    have h2 := collector_map msgs (CompsizeStat.init, ∅)
    rw [runCollector]
    rw [h2] at h1
    simpa [CompsizeStat.init] using h1
  · have h := collector_nref msgs (CompsizeStat.init, ∅)
    rw [runCollector]
    simpa [CompsizeStat.init] using h
  · have h := collector_ninline msgs (CompsizeStat.init, ∅)
    rw [runCollector]
    simpa [CompsizeStat.init] using h
  · have h := collector_nfile msgs (CompsizeStat.init, ∅)
    rw [runCollector]
    simpa [CompsizeStat.init] using h

theorem delta_mixed (x y : ExtentInfo) (hx : isRegPre x = true) (hy : isRegPre y = true)
    (hb : x.bucket = y.bucket) (hd : x.stat.disk = y.stat.disk)
    (hu : x.stat.uncomp = y.stat.uncomp) :
    csAdd (x.delta true) (y.delta false) = csAdd (y.delta true) (x.delta false) := by
  rcases x with ⟨xo, xf, xk, xt, xc, ⟨xd, xu, xr⟩⟩
  rcases y with ⟨yo, yf, yk, yt, yc, ⟨yd, yu, yr⟩⟩
  cases xt <;> cases yt <;> cases xc <;> cases yc <;>
    simp_all [ExtentInfo.delta, isRegPre, ExtentInfo.bucket, bucketDelta, PerComp.modify,
      CompsizeStat.init, csAdd, statAdd, perCompAdd] <;>
    omega

theorem stepInsert_inline_comm (p : CompsizeStat × ExtentMap) (x y : ExtentInfo)
    (hy : isRegPre y = false) :
    stepInsert (stepInsert p x) y = stepInsert (stepInsert p y) x := by
  obtain ⟨s, m⟩ := p
  rw [show stepInsert (s, m) y = (csAdd s (y.delta false), m) from by
    rw [stepInsert_eq]
    simp [hy]]
  rw [stepInsert_eq s m x]
  rw [stepInsert_eq, stepInsert_eq]
  simp only [hy, Bool.false_and, Bool.false_eq_true, if_false, Prod.mk.injEq]
  exact ⟨csAdd_right_comm _ _ _, trivial⟩

theorem stepInsert_comm (p : CompsizeStat × ExtentMap) (x y : ExtentInfo)
    (h : x.key = y.key → isRegPre x = true → isRegPre y = true →
      x.bucket = y.bucket ∧ x.stat.disk = y.stat.disk ∧ x.stat.uncomp = y.stat.uncomp) :
    stepInsert (stepInsert p x) y = stepInsert (stepInsert p y) x := by
  by_cases hy : isRegPre y
  · by_cases hx : isRegPre x
    · obtain ⟨s, m⟩ := p
      rw [stepInsert_eq s m x, stepInsert_eq s m y, stepInsert_eq, stepInsert_eq]
      by_cases hkey : x.key = y.key
      · obtain ⟨hb, hd, hu⟩ := h hkey hx hy
        rw [hkey]
        by_cases hym : y.key ∈ m
        · simp [hx, hy, hym, Finset.insert_eq_self.mpr hym, Prod.mk.injEq]
          exact csAdd_right_comm _ _ _
        · simp [hx, hy, hym, Prod.mk.injEq, Finset.mem_insert_self]
          rw [csAdd_assoc, csAdd_assoc, delta_mixed x y hx hy hb hd hu]
      · have hyx : y.key ≠ x.key := fun hh => hkey hh.symm
        simp [hx, hy, Prod.mk.injEq, Finset.mem_insert, hkey, hyx]
        exact ⟨csAdd_right_comm _ _ _, Finset.Insert.comm _ _ _⟩
    · exact (stepInsert_inline_comm p y x (Bool.eq_false_iff.mpr hx)).symm
  · exact stepInsert_inline_comm p x y (Bool.eq_false_iff.mpr hy)

theorem Compat_of_perm {E F : List ExtentInfo} (hp : E.Perm F) (hc : Compat E) : Compat F := by
  intro a ha b hb
  exact hc a (hp.mem_iff.mpr ha) b (hp.mem_iff.mpr hb)

theorem foldl_perm {E F : List ExtentInfo} (hp : E.Perm F) :
    Compat E → ∀ p : CompsizeStat × ExtentMap,
      E.foldl stepInsert p = F.foldl stepInsert p := by
  induction hp with
  | nil => intro _ p; rfl
  | cons x hp ih =>
    intro hc p
    rw [List.foldl_cons, List.foldl_cons]
    exact ih (fun a ha b hb => hc a (List.mem_cons_of_mem _ ha) b (List.mem_cons_of_mem _ hb)) _
  | swap x y l =>
    intro hc p
    rw [List.foldl_cons, List.foldl_cons, List.foldl_cons, List.foldl_cons]
    rw [stepInsert_comm p y x (fun hk h1 h2 => hc y (by simp) x (by simp) h1 h2 hk)]
  | trans h1 _ ih1 ih2 =>
    intro hc p
    rw [ih1 hc p, ih2 (Compat_of_perm h1 hc) p]

/-- C3 counterexample: two Regular references with the same disk_key but
different `disk` stats.  Inserting them in the two orders yields different
accumulators (the first insertion's disk value is the one counted), so
`aggregate (π E) = aggregate E` fails as stated for arbitrary multisets. -/
theorem c3_commutativity_counterexample :
    (aggregate [⟨0, 0, 1, .Regular, .None, ⟨1, 0, 0⟩⟩,
        ⟨0, 0, 1, .Regular, .None, ⟨2, 0, 0⟩⟩]).1
      ≠ (aggregate [⟨0, 0, 1, .Regular, .None, ⟨2, 0, 0⟩⟩,
        ⟨0, 0, 1, .Regular, .None, ⟨1, 0, 0⟩⟩]).1 := by
  decide

/-- C3 (amended) — Commutativity of aggregation holds for multisets in which
any two Regular/Prealloc elements sharing a disk_key agree on their bucket
(both Prealloc, or both Regular with the same compression) and on their disk
and uncomp stats: then any permutation of the input yields the same
`CompsizeStat` (all fields) and the same seen-set. -/
theorem c3_commutativity_amended (E F : List ExtentInfo) (hp : E.Perm F) (hc : Compat E) :
    aggregate E = aggregate F := foldl_perm hp hc _

/-- Witness for the amended C3 at a concrete pair of permuted lists. -/
theorem c3_commutativity_amended_witness :
    ([(⟨0, 0, 1, .Regular, .None, ⟨5, 6, 7⟩⟩ : ExtentInfo),
        ⟨0, 0, 2, .Prealloc, .Zstd, ⟨8, 9, 10⟩⟩].Perm
      [⟨0, 0, 2, .Prealloc, .Zstd, ⟨8, 9, 10⟩⟩, ⟨0, 0, 1, .Regular, .None, ⟨5, 6, 7⟩⟩]) ∧
    Compat [⟨0, 0, 1, .Regular, .None, ⟨5, 6, 7⟩⟩, ⟨0, 0, 2, .Prealloc, .Zstd, ⟨8, 9, 10⟩⟩] ∧
    aggregate [⟨0, 0, 1, .Regular, .None, ⟨5, 6, 7⟩⟩, ⟨0, 0, 2, .Prealloc, .Zstd, ⟨8, 9, 10⟩⟩]
      = aggregate [⟨0, 0, 2, .Prealloc, .Zstd, ⟨8, 9, 10⟩⟩,
          ⟨0, 0, 1, .Regular, .None, ⟨5, 6, 7⟩⟩] :=
  ⟨by decide, by decide, c3_commutativity_amended _ _ (by decide) (by decide)⟩

/-- C10 — First-reference bucket attribution: Regular and Prealloc references
share the one seen-extent set, so when the same (fresh) disk_key is inserted
twice — possibly with different classification — the disk and uncomp bytes are
credited entirely to the bucket of the reference processed first; the grand
totals and the final seen-set are independent of the order, but when the two
references map to different buckets (and carry nonzero bytes) the two
processing orders produce different per-bucket accumulators. -/
theorem c10_first_reference_attribution (s : CompsizeStat) (m : ExtentMap)
    (e1 e2 : ExtentInfo)
    (h1 : isRegPre e1 = true) (h2 : isRegPre e2 = true)
    (hkey : e1.key = e2.key) (hm : e1.key ∉ m)
    (hd : e1.stat.disk = e2.stat.disk) (hu : e1.stat.uncomp = e2.stat.uncomp) :
    (∀ b : Bucket,
        (bucketGet (stepInsert (stepInsert (s, m) e1) e2).1 b).disk
          = (bucketGet s b).disk + (if b = e1.bucket then e1.stat.disk else 0) ∧
        (bucketGet (stepInsert (stepInsert (s, m) e1) e2).1 b).uncomp
          = (bucketGet s b).uncomp + (if b = e1.bucket then e1.stat.uncomp else 0)) ∧
    ((stepInsert (stepInsert (s, m) e1) e2).1.totalDisk
        = (stepInsert (stepInsert (s, m) e2) e1).1.totalDisk ∧
      (stepInsert (stepInsert (s, m) e1) e2).1.totalUncomp
        = (stepInsert (stepInsert (s, m) e2) e1).1.totalUncomp ∧
      (stepInsert (stepInsert (s, m) e1) e2).1.totalRefd
        = (stepInsert (stepInsert (s, m) e2) e1).1.totalRefd ∧
      (stepInsert (stepInsert (s, m) e1) e2).2 = (stepInsert (stepInsert (s, m) e2) e1).2) ∧
    (e1.bucket ≠ e2.bucket → (e1.stat.disk ≠ 0 ∨ e1.stat.uncomp ≠ 0) →
      (stepInsert (stepInsert (s, m) e1) e2).1 ≠ (stepInsert (stepInsert (s, m) e2) e1).1) := by
  have hm2 : e2.key ∉ m := by rw [← hkey]; exact hm
  have o1 : stepInsert (stepInsert (s, m) e1) e2
      = (csAdd (csAdd s (e1.delta true)) (e2.delta false), Insert.insert e1.key m) := by
    rw [stepInsert_eq s m e1]
    rw [show (isRegPre e1 && decide (e1.key ∉ m)) = true from by simp [h1, hm]]
    rw [if_pos h1, stepInsert_eq]
    have hmem : e2.key ∈ Insert.insert e1.key m := by
      rw [← hkey]; exact Finset.mem_insert_self _ _
    rw [show (isRegPre e2 && decide (e2.key ∉ Insert.insert e1.key m)) = false from by
      simp [h2, hmem]]
    rw [if_pos h2]
    rw [show Insert.insert e2.key (Insert.insert e1.key m) = Insert.insert e1.key m from by
      rw [← hkey]; exact Finset.insert_idem _ _]
  have o2 : stepInsert (stepInsert (s, m) e2) e1
      = (csAdd (csAdd s (e2.delta true)) (e1.delta false), Insert.insert e2.key m) := by
    rw [stepInsert_eq s m e2]
    rw [show (isRegPre e2 && decide (e2.key ∉ m)) = true from by simp [h2, hm2]]
    rw [if_pos h2, stepInsert_eq]
    have hmem : e1.key ∈ Insert.insert e2.key m := by
      rw [hkey]; exact Finset.mem_insert_self _ _
    rw [show (isRegPre e1 && decide (e1.key ∉ Insert.insert e2.key m)) = false from by
      simp [h1, hmem]]
    rw [if_pos h1]
    rw [show Insert.insert e1.key (Insert.insert e2.key m) = Insert.insert e2.key m from by
      rw [hkey]; exact Finset.insert_idem _ _]
  have parta : ∀ b : Bucket,
      (bucketGet (stepInsert (stepInsert (s, m) e1) e2).1 b).disk
        = (bucketGet s b).disk + (if b = e1.bucket then e1.stat.disk else 0) ∧
      (bucketGet (stepInsert (stepInsert (s, m) e1) e2).1 b).uncomp
        = (bucketGet s b).uncomp + (if b = e1.bucket then e1.stat.uncomp else 0) := by
    intro b
    rw [o1]
    dsimp only
    rw [bucketGet_csAdd, bucketGet_csAdd]
    obtain ⟨hs1, hs2, _⟩ := bucketGet_delta_stale e2 b h2
    by_cases hb : b = e1.bucket
    · subst hb
      rw [bucketGet_delta_fresh_same e1 h1]
      simp [statAdd, hs1, hs2]
    · rw [bucketGet_delta_fresh_ne e1 b h1 hb]
      simp [statAdd, hs1, hs2, hb]
  have partaR : (bucketGet (stepInsert (stepInsert (s, m) e2) e1).1 e1.bucket).disk
        = (bucketGet s e1.bucket).disk + (if e1.bucket = e2.bucket then e1.stat.disk else 0) ∧
      (bucketGet (stepInsert (stepInsert (s, m) e2) e1).1 e1.bucket).uncomp
        = (bucketGet s e1.bucket).uncomp
          + (if e1.bucket = e2.bucket then e1.stat.uncomp else 0) := by
    rw [o2]
    dsimp only
    rw [bucketGet_csAdd, bucketGet_csAdd]
    obtain ⟨hs1, hs2, _⟩ := bucketGet_delta_stale e1 e1.bucket h1
    by_cases hb : e1.bucket = e2.bucket
    · rw [hb, bucketGet_delta_fresh_same e2 h2]
      rw [hb] at hs1 hs2
      simp [statAdd, hs1, hs2, hb, hd, hu]
    · rw [bucketGet_delta_fresh_ne e2 e1.bucket h2 hb]
      simp [statAdd, hs1, hs2, hb]
  refine ⟨parta, ⟨?_, ?_, ?_, ?_⟩, ?_⟩
  · rw [o1, o2]
    dsimp only
    rw [totalDisk_csAdd, totalDisk_csAdd, totalDisk_csAdd, totalDisk_csAdd,
      totalDisk_delta, totalDisk_delta, totalDisk_delta, totalDisk_delta]
    simp [h1, h2, hd]
  · rw [o1, o2]
    dsimp only
    rw [totalUncomp_csAdd, totalUncomp_csAdd, totalUncomp_csAdd, totalUncomp_csAdd,
      totalUncomp_delta, totalUncomp_delta, totalUncomp_delta, totalUncomp_delta]
    simp [h1, h2, hu]
  · rw [o1, o2]
    dsimp only
    rw [totalRefd_csAdd, totalRefd_csAdd, totalRefd_csAdd, totalRefd_csAdd,
      totalRefd_delta, totalRefd_delta, totalRefd_delta, totalRefd_delta]
    omega
  · rw [o1, o2]
    dsimp only
    rw [hkey]
  · intro hbne hnz heq
    obtain ⟨va, vb⟩ := parta e1.bucket
    obtain ⟨wa, wb⟩ := partaR
    rw [heq] at va vb
    rw [wa, if_neg hbne] at va
    rw [wb, if_neg hbne] at vb
    simp at va vb
    rcases hnz with hnz | hnz
    · exact hnz va
    · exact hnz vb

/-- Witness for C10 at a concrete pair of references sharing a disk_key but
classified differently (Prealloc first, Regular/Zstd second). -/
theorem c10_first_reference_attribution_witness :
    (let s := CompsizeStat.init
     let m : ExtentMap := ∅
     let e1 : ExtentInfo := ⟨0, 0, 5, .Prealloc, .None, ⟨100, 200, 10⟩⟩
     let e2 : ExtentInfo := ⟨0, 0, 5, .Regular, .Zstd, ⟨100, 200, 20⟩⟩
     isRegPre e1 = true ∧ isRegPre e2 = true ∧ e1.key = e2.key ∧ e1.key ∉ m ∧
       e1.stat.disk = e2.stat.disk ∧ e1.stat.uncomp = e2.stat.uncomp ∧
       ((∀ b : Bucket,
          (bucketGet (stepInsert (stepInsert (s, m) e1) e2).1 b).disk
            = (bucketGet s b).disk + (if b = e1.bucket then e1.stat.disk else 0) ∧
          (bucketGet (stepInsert (stepInsert (s, m) e1) e2).1 b).uncomp
            = (bucketGet s b).uncomp + (if b = e1.bucket then e1.stat.uncomp else 0)) ∧
        ((stepInsert (stepInsert (s, m) e1) e2).1.totalDisk
            = (stepInsert (stepInsert (s, m) e2) e1).1.totalDisk ∧
          (stepInsert (stepInsert (s, m) e1) e2).1.totalUncomp
            = (stepInsert (stepInsert (s, m) e2) e1).1.totalUncomp ∧
          (stepInsert (stepInsert (s, m) e1) e2).1.totalRefd
            = (stepInsert (stepInsert (s, m) e2) e1).1.totalRefd ∧
          (stepInsert (stepInsert (s, m) e1) e2).2
            = (stepInsert (stepInsert (s, m) e2) e1).2) ∧
        (e1.bucket ≠ e2.bucket → (e1.stat.disk ≠ 0 ∨ e1.stat.uncomp ≠ 0) →
          (stepInsert (stepInsert (s, m) e1) e2).1
            ≠ (stepInsert (stepInsert (s, m) e2) e1).1))) :=
  ⟨by decide, by decide, by decide, by decide, by decide, by decide,
    c10_first_reference_attribution CompsizeStat.init ∅
      ⟨0, 0, 5, .Prealloc, .None, ⟨100, 200, 10⟩⟩
      ⟨0, 0, 5, .Regular, .Zstd, ⟨100, 200, 20⟩⟩
      (by decide) (by decide) (by decide) (by decide) (by decide) (by decide)⟩

theorem parse_regpre_cases (it : IoctlSearchItem) (c : Compression) (t : ExtentType)
    (hc : Compression.from_u8 it.item.header.compression = some c)
    (ht : ExtentType.from_u8 it.item.header.typ = some t)
    (hni : t ≠ ExtentType.Inline) :
    it.parse = (if it.header.len ≠ 53 then ParseOutcome.error
      else if it.item.tail.disk_bytenr = 0 then ParseOutcome.dropped
      else if it.item.tail.disk_bytenr &&& 0xfff ≠ 0 then ParseOutcome.error
      else ParseOutcome.parsed ⟨it.header.objectid, it.header.offset,
        it.item.tail.disk_bytenr >>> 12, t, c,
        ⟨it.item.tail.disk_num_bytes, it.item.header.ram_bytes, it.item.tail.num_bytes⟩⟩) := by
  simp only [IoctlSearchItem.parse, hc, ht]
  simp [hni]

/-- C4 — Regular/Prealloc record parsing: with a valid compression byte and a
type byte of 1 (Regular) or 2 (Prealloc), parse errors exactly when the item
length is not 53 or the disk_bytenr is nonzero and misaligned; it silently
drops the record exactly when the length is 53 and disk_bytenr is 0; and on a
53-byte, nonzero, 4-KiB-aligned record it yields an ExtentInfo whose key is
`disk_bytenr >> 12` and whose stat is
`{disk = disk_num_bytes, uncomp = ram_bytes, refd = num_bytes}`. -/
theorem c4_regular_parse (it : IoctlSearchItem)
    (hty : it.item.header.typ = 1 ∨ it.item.header.typ = 2)
    (hcomp : it.item.header.compression ≤ 3) :
    (it.parse = ParseOutcome.error
        ↔ it.header.len ≠ 53
          ∨ (it.item.tail.disk_bytenr ≠ 0 ∧ it.item.tail.disk_bytenr &&& 0xfff ≠ 0)) ∧
    (it.parse = ParseOutcome.dropped
        ↔ it.header.len = 53 ∧ it.item.tail.disk_bytenr = 0) ∧
    (it.header.len = 53 → it.item.tail.disk_bytenr ≠ 0 →
      it.item.tail.disk_bytenr &&& 0xfff = 0 →
      ∃ e : ExtentInfo, it.parse = ParseOutcome.parsed e
        ∧ e.key = it.item.tail.disk_bytenr >>> 12
        ∧ e.stat = ⟨it.item.tail.disk_num_bytes, it.item.header.ram_bytes,
            it.item.tail.num_bytes⟩) := by
  obtain ⟨c, hc⟩ : ∃ c, Compression.from_u8 it.item.header.compression = some c := by
    have h4 : it.item.header.compression = 0 ∨ it.item.header.compression = 1
        ∨ it.item.header.compression = 2 ∨ it.item.header.compression = 3 := by omega
    rcases h4 with h | h | h | h <;> rw [h] <;> exact ⟨_, rfl⟩
  obtain ⟨t, ht, hni⟩ : ∃ t, ExtentType.from_u8 it.item.header.typ = some t
      ∧ t ≠ ExtentType.Inline := by
    rcases hty with h | h <;> rw [h] <;> exact ⟨_, rfl, by decide⟩
  rw [parse_regpre_cases it c t hc ht hni]
  refine ⟨?_, ?_, ?_⟩
  · by_cases h53 : it.header.len = 53 <;> by_cases hb0 : it.item.tail.disk_bytenr = 0 <;>
      by_cases hal : it.item.tail.disk_bytenr &&& 0xfff = 0 <;>
      simp [h53, hb0, hal]
  · by_cases h53 : it.header.len = 53 <;> by_cases hb0 : it.item.tail.disk_bytenr = 0 <;>
      by_cases hal : it.item.tail.disk_bytenr &&& 0xfff = 0 <;>
      simp [h53, hb0, hal]
  · intro h53 hb0 hal
    simp [h53, hb0, hal, ExtentInfo.key]

/-- Witness for C4 at a concrete well-formed Lzo Regular record. -/
theorem c4_regular_parse_witness :
    (let it : IoctlSearchItem :=
        ⟨⟨0, 257, 0, 108, 53⟩, ⟨⟨7, 8192, 2, 0, 0, 1⟩, ⟨8192, 4096, 0, 4096⟩⟩⟩
     (it.item.header.typ = 1 ∨ it.item.header.typ = 2) ∧ it.item.header.compression ≤ 3 ∧
       ((it.parse = ParseOutcome.error
          ↔ it.header.len ≠ 53
            ∨ (it.item.tail.disk_bytenr ≠ 0 ∧ it.item.tail.disk_bytenr &&& 0xfff ≠ 0)) ∧
        (it.parse = ParseOutcome.dropped
          ↔ it.header.len = 53 ∧ it.item.tail.disk_bytenr = 0) ∧
        (it.header.len = 53 → it.item.tail.disk_bytenr ≠ 0 →
          it.item.tail.disk_bytenr &&& 0xfff = 0 →
          ∃ e : ExtentInfo, it.parse = ParseOutcome.parsed e
            ∧ e.key = it.item.tail.disk_bytenr >>> 12
            ∧ e.stat = ⟨it.item.tail.disk_num_bytes, it.item.header.ram_bytes,
                it.item.tail.num_bytes⟩))) :=
  ⟨by decide, by decide,
    c4_regular_parse ⟨⟨0, 257, 0, 108, 53⟩, ⟨⟨7, 8192, 2, 0, 0, 1⟩, ⟨8192, 4096, 0, 4096⟩⟩⟩
      (by decide) (by decide)⟩

/-- C5 — Inline record parsing: with a valid compression byte and type byte 0
(Inline), parse always succeeds and yields an Inline ExtentInfo whose stat is
`{disk = header_len - 21, uncomp = ram_bytes, refd = ram_bytes}` (the length
is a u32 and at least the 21-byte file-extent header). -/
theorem c5_inline_parse (it : IoctlSearchItem)
    (hty : it.item.header.typ = 0)
    (hcomp : it.item.header.compression ≤ 3)
    (hlen1 : 21 ≤ it.header.len) (hlen2 : it.header.len < 2 ^ 32) :
    ∃ e : ExtentInfo, it.parse = ParseOutcome.parsed e
      ∧ e.typ = ExtentType.Inline
      ∧ e.stat = ⟨it.header.len - 21, it.item.header.ram_bytes,
          it.item.header.ram_bytes⟩ := by
  obtain ⟨c, hc⟩ : ∃ c, Compression.from_u8 it.item.header.compression = some c := by
    have h4 : it.item.header.compression = 0 ∨ it.item.header.compression = 1
        ∨ it.item.header.compression = 2 ∨ it.item.header.compression = 3 := by omega
    rcases h4 with h | h | h | h <;> rw [h] <;> exact ⟨_, rfl⟩
  have ht : ExtentType.from_u8 it.item.header.typ = some ExtentType.Inline := by
    rw [hty]; rfl
  have hwrap : (it.header.len + (2 ^ 64 - 21)) % 2 ^ 64 = it.header.len - 21 := by
    have h64 : (2 : Nat) ^ 64 = 18446744073709551616 := by norm_num
    have h32 : (2 : Nat) ^ 32 = 4294967296 := by norm_num
    rw [h64]
    rw [h32] at hlen2
    omega
  refine ⟨⟨it.header.objectid, it.header.offset, 0, ExtentType.Inline, c,
    ⟨it.header.len - 21, it.item.header.ram_bytes, it.item.header.ram_bytes⟩⟩, ?_, rfl, rfl⟩
  have hp : it.parse = ParseOutcome.parsed ⟨it.header.objectid, it.header.offset, 0,
      ExtentType.Inline, c, ⟨(it.header.len + (2 ^ 64 - 21)) % 2 ^ 64,
        it.item.header.ram_bytes, it.item.header.ram_bytes⟩⟩ := by
    simp [IoctlSearchItem.parse, hc, ht]
  rw [hp, hwrap]

/-- Witness for C5 at the spec's Scenario C record (`header_len = 1024`,
`ram_bytes = 3000`, Zlib): the parsed stat is `{1003, 3000, 3000}`. -/
theorem c5_inline_parse_witness :
    (let it : IoctlSearchItem :=
        ⟨⟨0, 257, 0, 108, 1024⟩, ⟨⟨7, 3000, 1, 0, 0, 0⟩, ⟨0, 0, 0, 0⟩⟩⟩
     it.item.header.typ = 0 ∧ it.item.header.compression ≤ 3 ∧ 21 ≤ it.header.len ∧
       it.header.len < 2 ^ 32 ∧
       ∃ e : ExtentInfo, it.parse = ParseOutcome.parsed e ∧ e.typ = ExtentType.Inline ∧
         e.stat = ⟨1003, 3000, 3000⟩) :=
  ⟨by decide, by decide, by decide, by decide,
    c5_inline_parse ⟨⟨0, 257, 0, 108, 1024⟩, ⟨⟨7, 3000, 1, 0, 0, 0⟩, ⟨0, 0, 0, 0⟩⟩⟩
      (by decide) (by decide) (by decide) (by decide)⟩

/-- C6 — the claim says corrupt enum bytes only fail the affected file with a
diagnostic and never panic; the code instead panics: `Compression::from_u8`
asserts `n <= 3` and `ExtentType::from_u8` calls `panic!` for `n > 2`, so
decoding a record with compression byte 4 or type byte 3 aborts by panic
(modelled as the `panic` outcome) rather than producing a per-file `Err`. -/
theorem c6_corrupt_enum_panics :
    Compression.from_u8 4 = none ∧ ExtentType.from_u8 3 = none ∧
    IoctlSearchItem.parse
        ⟨⟨0, 257, 0, 108, 53⟩, ⟨⟨7, 4096, 4, 0, 0, 1⟩, ⟨4096, 4096, 0, 4096⟩⟩⟩
      = ParseOutcome.panic ∧
    IoctlSearchItem.parse
        ⟨⟨0, 257, 0, 108, 53⟩, ⟨⟨7, 4096, 0, 0, 0, 3⟩, ⟨4096, 4096, 0, 4096⟩⟩⟩
      = ParseOutcome.panic := ⟨rfl, rfl, rfl, rfl⟩

theorem leastShift_le (n k : Nat) (h : n >>> (10 * k) ≤ 1024 * 10) : leastShift n ≤ k := by
  unfold leastShift
  apply Nat.find_le
  exact h

theorem leastShift_spec (n : Nat) : n >>> (10 * leastShift n) ≤ 1024 * 10 := by
  unfold leastShift
  exact @Nat.find_spec (fun k => n >>> (10 * k) ≤ 1024 * 10) _ _

theorem leastShift_zero (n : Nat) (h : n ≤ 1024 * 10) : leastShift n = 0 := by
  unfold leastShift
  rw [Nat.find_eq_zero]
  simpa using h

theorem leastShift_succ (n : Nat) (h : 1024 * 10 < n) :
    leastShift n = leastShift (n >>> 10) + 1 := by
  have hsplit : ∀ k, n >>> (10 * (k + 1)) = (n >>> 10) >>> (10 * k) := fun k => by
    rw [show 10 * (k + 1) = 10 + 10 * k by ring, Nat.shiftRight_add]
  apply le_antisymm
  · apply leastShift_le
    rw [hsplit]
    exact leastShift_spec _
  · by_contra hc
    push_neg at hc
    have h0 : leastShift n ≠ 0 := by
      intro h0
      have hs := leastShift_spec n
      rw [h0] at hs
      simp [Nat.shiftRight_zero] at hs
      omega
    obtain ⟨j, hj⟩ : ∃ j, leastShift n = j + 1 := ⟨leastShift n - 1, by omega⟩
    have hs := leastShift_spec n
    rw [hj, hsplit] at hs
    have hle := leastShift_le _ _ hs
    omega

theorem humanLoop_eq (n : Nat) :
    ∀ c, humanLoop n c = (n >>> (10 * leastShift n), c + leastShift n) := by
  induction n using Nat.strong_induction_on with
  | _ n ih =>
    intro c
    by_cases h : 1024 * 10 < n
    · rw [humanLoop, if_pos h]
      have hlt : n >>> 10 < n := by
        rw [Nat.shiftRight_eq_div_pow]
        exact Nat.div_lt_self (by omega) (by norm_num)
      rw [ih _ hlt (c + 1), leastShift_succ n h]
      rw [show 10 * (leastShift (n >>> 10) + 1) = 10 + 10 * leastShift (n >>> 10) by ring,
        Nat.shiftRight_add]
      exact congrArg₂ Prod.mk rfl (by omega)
    · rw [humanLoop, if_neg h, leastShift_zero n (by omega)]
      simp

theorem leastShift_le_six (n : Nat) (h : n < 2 ^ 64) : leastShift n ≤ 6 := by
  apply leastShift_le
  have e : 10 * 6 = 60 := rfl
  rw [e, Nat.shiftRight_eq_div_pow]
  have h60 : (2 : Nat) ^ 60 = 1152921504606846976 := by norm_num
  have h64 : (2 : Nat) ^ 64 = 18446744073709551616 := by norm_num
  rw [h60]
  rw [h64] at h
  omega

theorem leastShift_le_five (n : Nat) (h : n < 2 ^ 64)
    (h2 : 1024 ≤ n >>> (10 * leastShift n)) : leastShift n ≤ 5 := by
  have h6 := leastShift_le_six n h
  by_contra hc
  push_neg at hc
  have he : leastShift n = 6 := by omega
  rw [he] at h2
  have e : 10 * 6 = 60 := rfl
  rw [e, Nat.shiftRight_eq_div_pow] at h2
  have h60 : (2 : Nat) ^ 60 = 1152921504606846976 := by norm_num
  have h64 : (2 : Nat) ^ 64 = 18446744073709551616 := by norm_num
  rw [h60] at h2
  rw [h64] at h
  omega

theorem UNITS_lookup (k : Nat) (h : k ≤ 6) :
    UNITS[k]? = some (("BKMGTPE".toList).getD k ' ') := by
  interval_cases k <;> rfl

/-- C7 — Human-scale formatting: `bytes` mode prints the exact decimal byte
count; `human` mode right-shifts by 10 bits the least number of times needed to
reach at most `10 * 1024`, then prints the value right-aligned in four columns
with the unit letter of the shift count from `BKMGTPE` when it is below 1024,
and otherwise prints it as `N.N` of the next-higher unit with the next unit
letter. -/
theorem c7_human_scale (n : Nat) (h : n < 2 ^ 64) :
    Scale.scale Scale.Bytes n = some (toString n ++ "B") ∧
    (n >>> (10 * leastShift n) < 1024 →
      Scale.scale Scale.Human n
        = some (padLeftSpaces 4 (toString (n >>> (10 * leastShift n)))
            ++ String.mk [("BKMGTPE".toList).getD (leastShift n) ' '])) ∧
    (1024 ≤ n >>> (10 * leastShift n) →
      Scale.scale Scale.Human n
        = some (" " ++ toString ((n >>> (10 * leastShift n)) >>> 10) ++ "."
            ++ toString ((n >>> (10 * leastShift n)) * 10 / 1024 % 10)
            ++ String.mk [("BKMGTPE".toList).getD (leastShift n + 1) ' '])) := by
  have hl := humanLoop_eq n 0
  refine ⟨rfl, ?_, ?_⟩
  · intro hlt
    simp only [Scale.scale]
    rw [hl]
    dsimp only
    simp only [Nat.zero_add]
    rw [if_pos hlt, UNITS_lookup _ (leastShift_le_six n h)]
    rfl
  · intro hge
    simp only [Scale.scale]
    rw [hl]
    dsimp only
    simp only [Nat.zero_add]
    rw [if_neg (not_lt.mpr hge), UNITS_lookup _ (by
      have := leastShift_le_five n h hge
      omega)]
    rfl

/-- Witness for C7 at `n = 3000000` (a value that scales into the M range). -/
theorem c7_human_scale_witness :
    3000000 < 2 ^ 64 ∧
    (Scale.scale Scale.Bytes 3000000 = some (toString 3000000 ++ "B") ∧
      (3000000 >>> (10 * leastShift 3000000) < 1024 →
        Scale.scale Scale.Human 3000000
          = some (padLeftSpaces 4 (toString (3000000 >>> (10 * leastShift 3000000)))
              ++ String.mk [("BKMGTPE".toList).getD (leastShift 3000000) ' '])) ∧
      (1024 ≤ 3000000 >>> (10 * leastShift 3000000) →
        Scale.scale Scale.Human 3000000
          = some (" " ++ toString ((3000000 >>> (10 * leastShift 3000000)) >>> 10) ++ "."
              ++ toString ((3000000 >>> (10 * leastShift 3000000)) * 10 / 1024 % 10)
              ++ String.mk [("BKMGTPE".toList).getD (leastShift 3000000 + 1) ' ']))) :=
  ⟨by decide, c7_human_scale 3000000 (by decide)⟩

/-- C8 — the claim says that a zero uncompressed total leads to `No Files.` or
`All empty or still-delalloced files.` on stderr, nothing on stdout, exit code
0, and that rendering never divides by the zero total.  The code diverges: the
oldmain epilogue prints `No files.` (different capitalisation) and exits 1 in
both cases, and the display path unconditionally computes
`total_disk * 100 / total_uncomp` — a division by zero (panic) whenever the
accumulated uncompressed total is zero, marked `bug: div by 0` in the source. -/
theorem c8_zero_total_render :
    oldmainEpilogue CompsizeStat.init = MainOutcome.stderrExit "No files." 1 ∧
    (∀ s : CompsizeStat, s.nfile ≠ 0 → s.nref = 0 →
      oldmainEpilogue s = MainOutcome.stderrExit "All empty or still-delalloced files." 1) ∧
    (∀ (s : CompsizeStat) (sc : Scale), s.totalUncomp = 0 → s.render sc = none) := by
  refine ⟨rfl, ?_, ?_⟩
  · intro s h1 h2
    simp [oldmainEpilogue, h1, h2]
  · intro s sc h
    have hc : checkedDiv (s.totalDisk * 100) s.totalUncomp = none := by
      simp [checkedDiv, h]
    rw [CompsizeStat.render, hc]
    rfl

/-- Witness for C8: the all-zero accumulator (no files) has zero uncompressed
total and its rendering is the div-by-zero panic; a 3-file accumulator with no
references takes the second stderr branch with exit code 1. -/
theorem c8_zero_total_render_witness :
    ((⟨3, 0, 0, 0, ⟨0, 0, 0⟩, ⟨⟨0, 0, 0⟩, ⟨0, 0, 0⟩, ⟨0, 0, 0⟩, ⟨0, 0, 0⟩⟩⟩ :
          CompsizeStat).nfile ≠ 0 ∧
      (⟨3, 0, 0, 0, ⟨0, 0, 0⟩, ⟨⟨0, 0, 0⟩, ⟨0, 0, 0⟩, ⟨0, 0, 0⟩, ⟨0, 0, 0⟩⟩⟩ :
          CompsizeStat).nref = 0 ∧
      oldmainEpilogue ⟨3, 0, 0, 0, ⟨0, 0, 0⟩, ⟨⟨0, 0, 0⟩, ⟨0, 0, 0⟩, ⟨0, 0, 0⟩, ⟨0, 0, 0⟩⟩⟩
        = MainOutcome.stderrExit "All empty or still-delalloced files." 1) ∧
    (CompsizeStat.init.totalUncomp = 0 ∧ CompsizeStat.init.render Scale.Human = none) :=
  ⟨⟨by decide, by decide, c8_zero_total_render.2.1 _ (by decide) (by decide)⟩,
    by decide, c8_zero_total_render.2.2 CompsizeStat.init Scale.Human (by decide)⟩

theorem lookup_cons_self (d : DevId) (ds : List Nat) (rest : JobMgr) :
    List.lookup d ((d, ds) :: rest) = some ds := by
  simp [List.lookup]

theorem lookup_cons_ne (d d0 : DevId) (ds : List Nat) (rest : JobMgr) (h : d ≠ d0) :
    List.lookup d ((d0, ds) :: rest) = List.lookup d rest := by
  have hb : (d == d0) = false := beq_eq_false_iff_ne.mpr h
  simp [List.lookup, hb]

theorem lookup_eq_none_of_not_mem (d : DevId) (l : JobMgr) (h : d ∉ l.map Prod.fst) :
    List.lookup d l = none := by
  induction l with
  | nil => rfl
  | cons x rest ih =>
    obtain ⟨d0, ds⟩ := x
    simp only [List.map_cons, List.mem_cons, not_or] at h
    obtain ⟨h1, h2⟩ := h
    rw [lookup_cons_ne d d0 ds rest h1]
    exact ih h2

/-- C9 — Director partial-bucket extraction: `get_n_jobs` returns `None`
exactly when the store is empty; otherwise the returned chunk's directories
all come from the single bucket of its device id — the whole bucket, which is
removed, when it holds at most `n` entries, and otherwise exactly the first
`n` entries drained from the front with the remainder left in place; every
other bucket is untouched. -/
theorem c9_get_n_jobs (jobs : JobMgr) (n : Nat) (hnd : (jobs.map Prod.fst).Nodup) :
    (JobMgr.get_n_jobs jobs n = none ↔ jobs = []) ∧
    (∀ (c : JobChunk) (rest : JobMgr), JobMgr.get_n_jobs jobs n = some (c, rest) →
      ∃ bucket : List Nat, jobs.lookup c.dev = some bucket ∧
        (∀ x ∈ c.dirs, x ∈ bucket) ∧
        (bucket.length ≤ n →
          c.dirs = bucket ∧ rest.lookup c.dev = none ∧
            ∀ d, d ≠ c.dev → rest.lookup d = jobs.lookup d) ∧
        (n < bucket.length →
          c.dirs = bucket.take n ∧ rest.lookup c.dev = some (bucket.drop n) ∧
            ∀ d, d ≠ c.dev → rest.lookup d = jobs.lookup d)) := by
  constructor
  · cases jobs with
    | nil => simp [JobMgr.get_n_jobs]
    | cons hd tl =>
      obtain ⟨dev, dirs⟩ := hd
      by_cases hlen : dirs.length ≤ n <;> simp [JobMgr.get_n_jobs, hlen]
  · intro c rest hsome
    cases jobs with
    | nil => simp [JobMgr.get_n_jobs] at hsome
    | cons hd tl =>
      obtain ⟨dev, dirs⟩ := hd
      have hdev_not : dev ∉ tl.map Prod.fst := by
        simp only [List.map_cons, List.nodup_cons] at hnd
        exact hnd.1
      rw [JobMgr.get_n_jobs] at hsome
      by_cases hlen : dirs.length ≤ n
      · rw [if_pos hlen] at hsome
        obtain ⟨hc, hrest⟩ : (⟨dev, dirs⟩ : JobChunk) = c ∧ tl = rest := by
          simpa using hsome
        subst hc
        subst hrest
        refine ⟨dirs, lookup_cons_self dev dirs tl, fun x hx => hx, ?_, ?_⟩
        · intro _
          exact ⟨rfl, lookup_eq_none_of_not_mem dev tl hdev_not,
            fun d hd => (lookup_cons_ne d dev dirs tl hd).symm⟩
        · intro hgt
          omega
      · rw [if_neg hlen] at hsome
        obtain ⟨hc, hrest⟩ : (⟨dev, dirs.take n⟩ : JobChunk) = c
            ∧ (dev, dirs.drop n) :: tl = rest := by
          simpa using hsome
        subst hc
        subst hrest
        refine ⟨dirs, lookup_cons_self dev dirs tl,
          fun x hx => List.take_subset n dirs hx, ?_, ?_⟩
        · intro hle
          omega
        · intro _
          refine ⟨rfl, lookup_cons_self dev (dirs.drop n) tl, ?_⟩
          intro d hd
          rw [lookup_cons_ne d dev (dirs.drop n) tl hd, lookup_cons_ne d dev dirs tl hd]

/-- Witness for C9 at a concrete two-bucket store and `n = 2` (the head bucket
holds three directories, so the first two are drained). -/
theorem c9_get_n_jobs_witness :
    (let jobs : JobMgr := [(1, [10, 20, 30]), (2, [40])]
     (jobs.map Prod.fst).Nodup ∧
       ((JobMgr.get_n_jobs jobs 2 = none ↔ jobs = []) ∧
        (∀ (c : JobChunk) (rest : JobMgr), JobMgr.get_n_jobs jobs 2 = some (c, rest) →
          ∃ bucket : List Nat, jobs.lookup c.dev = some bucket ∧
            (∀ x ∈ c.dirs, x ∈ bucket) ∧
            (bucket.length ≤ 2 →
              c.dirs = bucket ∧ rest.lookup c.dev = none ∧
                ∀ d, d ≠ c.dev → rest.lookup d = jobs.lookup d) ∧
            (2 < bucket.length →
              c.dirs = bucket.take 2 ∧ rest.lookup c.dev = some (bucket.drop 2) ∧
                ∀ d, d ≠ c.dev → rest.lookup d = jobs.lookup d)))) :=
  ⟨by decide, c9_get_n_jobs [(1, [10, 20, 30]), (2, [40])] 2 (by decide)⟩

end Xsz
